import Mathlib

/-
  Verification of the mozaggregator merge-and-persist engine
  (mozaggregator/db.py and the plpgsql routines it installs).

  The embedding models the Postgres-side state as explicit association
  lists: `Db.tables` maps a partition name (the `channel_version_buildid`
  identifier) to its rows, and `Db.ledger` models the
  `buildid_update_dates` table mapping a partition name to the set of
  submission dates already merged into it.  bigint[] values are `List Int`;
  SQL errors and plpgsql exceptions surface as `Except String`.
-/

/-- Lookup in an association list keyed by strings (models a keyed SQL
select on a primary-key column). -/
def alookup {α : Type} : List (String × α) → String → Option α
  | [], _ => none
  | (k, v) :: rest, key => if k = key then some v else alookup rest key

/-- Update-or-insert in an association list (models the
update-where-key-else-insert statements used for keyed tables). -/
def aset {α : Type} : List (String × α) → String → α → List (String × α)
  | [], key, v => [(key, v)]
  | (k, w) :: rest, key, v =>
    if k = key then (key, v) :: rest else (k, w) :: aset rest key v

/-- Reading `acc[i]` (1-based in plpgsql, 0-based here) with
`coalesce(acc[i], 0)`: out-of-range reads yield 0. -/
def arr_get : List Int → Nat → Int
  | [], _ => 0
  | v :: _, 0 => v
  | _ :: rest, n + 1 => arr_get rest n

/-- The plpgsql assignment `acc[i] := v`: in-range positions are
overwritten, assignment past the end extends the array (intermediate
positions are nulls, which every later read coalesces to 0, so they are
modelled as 0; the loop in `aggregate_arrays` only ever assigns at index
at most the current length, so no gap is ever created). -/
def arr_set : List Int → Nat → Int → List Int
  | [], 0, v => [v]
  | [], n + 1, v => 0 :: arr_set [] n v
  | _ :: rest, 0, v => v :: rest
  | a :: rest, n + 1, v => a :: arr_set rest n v

/-- One iteration of the loop body of `aggregate_arrays`:
`acc[i] := coalesce(acc[i], 0) + x[i]`. -/
def agg_step (x : List Int) (acc : List Int) (i : Nat) : List Int :=
  arr_set acc i (arr_get acc i + arr_get x i)

/-- The loop `for i in 1 .. array_length(x, 1)` of `aggregate_arrays`,
run over indices `0 .. x.length - 1`. -/
def agg_body (acc x : List Int) : List Int :=
  (List.range x.length).foldl (agg_step x) acc

/-- The plpgsql function `aggregate_arrays(acc bigint[], x bigint[])`.
When `x` is the empty array, `array_length(x, 1)` is SQL NULL and the
integer `for` loop raises `upper bound of FOR loop cannot be null`;
otherwise the loop adds `x` into `acc` positionwise, extending `acc` as
needed. -/
def aggregate_arrays (acc x : List Int) : Except String (List Int) :=
  if x.length = 0 then Except.error "upper bound of FOR loop cannot be null"
  else Except.ok (agg_body acc x)

/-- Specification-side description of the accumulator result: the
positional sum of two vectors, the shorter one padded with zeros. -/
def padSum (a b : List Int) : List Int :=
  (List.range (max a.length b.length)).map (fun i => arr_get a i + arr_get b i)

/-- The two-row application of the `aggregate_histograms` aggregate
performed by the upsert in `add_buildid_metric`:
`select aggregate_histograms(v) from (values (1, t.histogram), (2, $1))`,
i.e. the state function folded from the init condition `{}` over the
stored histogram and then the incoming one. -/
def aggregate_histograms_pair (h1 h2 : List Int) : Except String (List Int) :=
  match aggregate_arrays [] h1 with
  | Except.ok acc => aggregate_arrays acc h2
  | Except.error e => Except.error e

/-- The dimension document built by `_upsert_aggregate`: it always carries
exactly these eight keys, so the jsonb containment test `t.dimensions @> $2`
used by the upsert coincides with equality of this record. -/
structure Dimensions where
  application : String
  architecture : String
  revision : String
  os : String
  os_version : String
  metric : String
  label : String
  child : Bool
deriving DecidableEq

/-- A row of a per-buildid partition table `(dimensions jsonb, histogram bigint[])`
(the serial id column plays no role in the semantics). -/
structure Row where
  dims : Dimensions
  histogram : List Int
deriving DecidableEq

/-- The store state: the dynamically created per-buildid tables, and the
`buildid_update_dates` ledger table `(tablename text primary key,
submission_dates text[])`. -/
structure Db where
  tables : List (String × List Row)
  ledger : List (String × List String)
deriving DecidableEq

/-- The identifier `tablename`, built by concatenating channel, version and
buildid with underscores in `add_buildid_metric` and `was_buildid_processed`.
No sanitization of any kind is applied to the three components. -/
def mkTablename (channel version buildid : String) : String :=
  channel ++ "_" ++ version ++ "_" ++ buildid

/-- The rows currently stored in the partition for a key (a table that does
not exist yet reads as empty, matching the create-if-absent step). -/
def tableOf (db : Db) (channel version buildid : String) : List Row :=
  (alookup db.tables (mkTablename channel version buildid)).getD []

/-- The per-row effect of the upsert UPDATE branch, with the already
computed merged histogram: rows matching the incoming dimensions get the
merged value, others are untouched. -/
def updateRows (d : Dimensions) (h : List Int) : List Row → Except String (List Row)
  | [] => Except.ok []
  | r :: rest =>
    if r.dims = d then
      match aggregate_histograms_pair r.histogram h with
      | Except.ok nh =>
        match updateRows d h rest with
        | Except.ok rest2 => Except.ok ({ dims := r.dims, histogram := nh } :: rest2)
        | Except.error e => Except.error e
      | Except.error e => Except.error e
    else
      match updateRows d h rest with
      | Except.ok rest2 => Except.ok (r :: rest2)
      | Except.error e => Except.error e

/-- The plpgsql function `add_buildid_metric(channel, version, buildid,
dimensions, histogram)`: creates the partition table on first use, then
runs the upsert CTE — update every row whose dimensions match, and insert
a fresh `(dimensions, histogram)` row only when the update touched
nothing. An error raised by the aggregate aborts the statement.
Modelling boundary: the function splices `tablename` into dynamically
built statement text, and this definition models the store as a keyed map,
so it captures the behavior exactly when the interpolated identifier lexes
as a single SQL identifier (the region the coordinator and the theorems
stated through this definition operate in); when the identifier is
malformed the real storage layer instead raises a SQL syntax error while
parsing the dynamic statement — that failure path is outside this
definition, and no theorem about malformed identifiers is stated through
it. -/
def add_buildid_metric (db : Db) (channel version buildid : String)
    (dims : Dimensions) (histogram : List Int) : Except String Db :=
  if ∃ r ∈ tableOf db channel version buildid, r.dims = dims then
    match updateRows dims histogram (tableOf db channel version buildid) with
    | Except.ok t2 =>
      Except.ok { db with tables := aset db.tables (mkTablename channel version buildid) t2 }
    | Except.error e => Except.error e
  else
    Except.ok { db with tables := aset db.tables (mkTablename channel version buildid) (tableOf db channel version buildid ++ [{ dims := dims, histogram := histogram }]) }

/-- The plpgsql function `was_buildid_processed(channel, version, buildid,
submission_date)`: reports whether the submission date is already in the
ledger entry for the partition, and if it is not, appends it (creating
the ledger row when absent). Unlike `add_buildid_metric`, this function
uses only parameterized statements on the static `buildid_update_dates`
table — the concatenated identifier is an ordinary string value, never
spliced into statement text — so this definition is exact for all inputs,
including malformed partition-key components. -/
def was_buildid_processed (db : Db) (channel version buildid sdate : String) : Bool × Db :=
  match alookup db.ledger (mkTablename channel version buildid) with
  | some dates =>
    if sdate ∈ dates then (true, db)
    else (false, { db with ledger := aset db.ledger (mkTablename channel version buildid) (dates ++ [sdate]) })
  | none =>
    (false, { db with ledger := aset db.ledger (mkTablename channel version buildid) [sdate] })

/-- The module-level `_revision_map` dictionary of db.py. -/
def _revision_map : List (String × String) :=
  [("nightly", "https://hg.mozilla.org/mozilla-central/rev/tip"),
   ("aurora", "https://hg.mozilla.org/releases/mozilla-aurora/rev/tip"),
   ("beta", "https://hg.mozilla.org/releases/mozilla-beta/rev/tip"),
   ("release", "https://hg.mozilla.org/releases/mozilla-release/rev/tip")]

/-- The revision lookup in `_get_complete_histogram`:
`_revision_map.get(channel, "nightly")` — note the default is the literal
string "nightly", not the locator the "nightly" channel maps to. -/
def _get_revision (channel : String) : String :=
  (alookup _revision_map channel).getD "nightly"

/-- The single-quote character, written by code point to keep it out of
string literals. -/
def quoteChar : Char := Char.ofNat 39

/-- The label cleanup of `_upsert_aggregate`: the Python replace call that
substitutes the empty string for the single-quote character, i.e. every
single-quote character is removed from the label. -/
def stripQuotes (s : String) : String :=
  String.mk (s.data.filter (fun c => c != quoteChar))

/-- Character-list version of Python `str.startswith`. -/
def startsWithChars : List Char → List Char → Bool
  | [], _ => true
  | _ :: _, [] => false
  | p :: ps, c :: cs => p == c && startsWithChars ps cs

/-- Python `metric.startswith("SIMPLE_")`-style test. -/
def str_startsWith (s pre : String) : Bool :=
  startsWithChars pre.data s.data

/-- The per-metric payload handed to `_upsert_aggregate`:
`{histogram, count}`. -/
structure Payload where
  histogram : List Int
  count : Int
deriving DecidableEq

/-- The triple `(metric, label, child)` keying each payload. -/
structure MetricKey where
  metric : String
  label : String
  child : Bool
deriving DecidableEq

/-- The 9-tuple key of one aggregate:
(submission date, channel, version, build id, application, architecture,
revision, os, os version). -/
structure AggKey where
  submission_date : String
  channel : String
  version : String
  build_id : String
  application : String
  architecture : String
  revision : String
  os : String
  os_version : String
deriving DecidableEq

/-- One aggregate of a batch: a 9-tuple key with its metric payloads. -/
abbrev Aggregate := AggKey × List (MetricKey × Payload)

/-- The external moztelemetry `Histogram(...).get_value(...)` expansion,
taken as an oracle from (revision, metric, raw values) to the complete
bucket vector; `none` models the `KeyError` raised when the metric has no
definition at that revision. The library is outside this repository. -/
def Oracle : Type := String → String → List Int → Option (List Int)

/-- The function `_get_complete_histogram(channel, metric, values)`: metrics whose name
starts with "SIMPLE_" are already complete and pass through; other metrics
are expanded through the (external) histogram definition for the resolved
revision. `map(int, ...)` is the identity here since values are already
integers. -/
def _get_complete_histogram (oracle : Oracle) (channel metric : String)
    (values : List Int) : Option (List Int) :=
  if str_startsWith metric "SIMPLE_" then some values
  else oracle (_get_revision channel) metric values

/-- The metric loop of `_upsert_aggregate`: build the dimension document
(with quotes stripped from the label), expand the histogram — skipping the
metric and continuing with the rest when expansion raises `KeyError` —
append the count, and call `add_buildid_metric`. -/
def upsertMetrics (oracle : Oracle) (key : AggKey) :
    Db → List (MetricKey × Payload) → Except String Db
  | db, [] => Except.ok db
  | db, (mk, p) :: rest =>
    match _get_complete_histogram oracle key.channel mk.metric p.histogram with
    | none => upsertMetrics oracle key db rest
    | some hist =>
      match add_buildid_metric db key.channel key.version key.build_id
        { application := key.application, architecture := key.architecture,
          revision := key.revision, os := key.os, os_version := key.os_version,
          metric := mk.metric, label := stripQuotes mk.label, child := mk.child }
        (hist ++ [p.count]) with
      | Except.ok db2 => upsertMetrics oracle key db2 rest
      | Except.error e => Except.error e

/-- The function `_upsert_aggregate(cursor, aggregate)`. -/
def _upsert_aggregate (oracle : Oracle) (db : Db) (agg : Aggregate) : Except String Db :=
  upsertMetrics oracle agg.1 db agg.2

/-- The loop `for aggregate in aggregates[1]` of `_upsert_aggregates`. -/
def upsertAggList (oracle : Oracle) : Db → List Aggregate → Except String Db
  | db, [] => Except.ok db
  | db, agg :: rest =>
    match _upsert_aggregate oracle db agg with
    | Except.ok db2 => upsertAggList oracle db2 rest
    | Except.error e => Except.error e

/-- Per-batch outcome of `_upsert_aggregates`: early return on the ledger
hit, commit, dry-run rollback, or a propagated store error (which leaves
the transaction uncommitted). -/
inductive Outcome
  | committed
  | alreadyProcessed
  | rolledBack
  | failed (msg : String)
deriving DecidableEq

/-- The batch handed to `_upsert_aggregates`: the first component is the
(submission date, channel, version, build id) key, `aggregates[1]` the
aggregates. -/
structure Batch where
  submission_date : String
  channel : String
  version : String
  build_id : String
  items : List Aggregate
deriving DecidableEq

/-- The function `_upsert_aggregates(aggregates, dry_run)` on a non-autocommit
connection: the ledger check-and-set and all row writes form one
transaction, published only by the final commit; the early return, a
dry run, or an error leaves the store unchanged. -/
def _upsert_aggregates (oracle : Oracle) (db : Db) (batch : Batch)
    (dry_run : Bool) : Outcome × Db :=
  match was_buildid_processed db batch.channel batch.version batch.build_id
      batch.submission_date with
  | (true, _) => (Outcome.alreadyProcessed, db)
  | (false, db1) =>
    match upsertAggList oracle db1 batch.items with
    | Except.ok db2 =>
      if dry_run then (Outcome.rolledBack, db) else (Outcome.committed, db2)
    | Except.error e => (Outcome.failed e, db)

/-- Specification-side description of what one `add_buildid_metric` call
does to the partition rows: merge into every matching row, or append one
fresh row when nothing matches. -/
def upsertResult (t : List Row) (d : Dimensions) (h : List Int) : List Row :=
  if ∃ r ∈ t, r.dims = d then
    t.map (fun r =>
      if r.dims = d then { dims := r.dims, histogram := padSum r.histogram h } else r)
  else t ++ [{ dims := d, histogram := h }]

/-- Errors of the Typed Merge Engine. -/
inductive MergeError
  | NotMergeable
deriving DecidableEq

/-- Errors of probe-source resolution. -/
inductive ResolveError
  | ConflictingSource
  | DefinitionNotFound
deriving DecidableEq

/-- Modelled from the spec: the closed set of metric kinds of the Typed
Merge Engine (the Scalar class of mozaggregator/scalar.py is not under
src/; only src/tests/test_scalar.py refers to it). -/
inductive MetricKind
  | uint
  | histogramLinear
  | histogramExponential
  | histogramBoolean
  | histogramFlag
  | histogramCount
  | string
  | boolean
deriving DecidableEq

/-- Modelled from the spec: the merge-legality capability flag — numeric
kinds (unsigned integer and the histogram kinds) are mergeable, string and
boolean are not. -/
def MetricKind.mergeable : MetricKind → Bool
  | .string => false
  | .boolean => false
  | _ => true

/-- Values carried by metrics: scalar numbers, bucket vectors, strings,
booleans. -/
inductive MetricValue
  | num (n : Int)
  | vec (v : List Int)
  | str (s : String)
  | flag (b : Bool)
deriving DecidableEq

/-- Modelled from the spec: `merge(kind, a, b)` of the Typed Merge Engine
(mozaggregator/scalar.py is not under src/). Numeric kinds merge by scalar
or elementwise sum; invoking merge on a non-numeric kind (string, boolean)
always fails with `NotMergeable`, as does a value whose shape does not fit
the kind. -/
def merge (k : MetricKind) (a b : MetricValue) : Except MergeError MetricValue :=
  match k with
  | .string => Except.error MergeError.NotMergeable
  | .boolean => Except.error MergeError.NotMergeable
  | .uint =>
    match a, b with
    | .num x, .num y => Except.ok (.num (x + y))
    | _, _ => Except.error MergeError.NotMergeable
  | _ =>
    match a, b with
    | .vec x, .vec y => Except.ok (.vec (padSum x y))
    | _, _ => Except.error MergeError.NotMergeable

/-- Modelled from the spec: probe-source resolution of the Probe Registry
Client (mozaggregator/scalar.py is not under src/; only its tests are).
Resolution order: explicit registry URL, else explicit revision, else the
channel-to-revision mapping with the nightly locator as the fallback for
an unrecognized or missing channel. Supplying both an explicit channel and
an explicit revision is ambiguous and fails with `ConflictingSource`
before any network access; the second component of the result lists the
network fetches performed. -/
def resolve_probe_source (channel revision url : Option String) :
    Except ResolveError String × List String :=
  match channel, revision with
  | some _, some _ => (Except.error ResolveError.ConflictingSource, [])
  | _, _ =>
    match url with
    | some u => (Except.ok u, [u])
    | none =>
      match revision with
      | some r => (Except.ok r, [r])
      | none =>
        match channel with
        | some c =>
          let r := (alookup _revision_map c).getD "https://hg.mozilla.org/mozilla-central/rev/tip"
          (Except.ok r, [r])
        | none =>
          (Except.ok "https://hg.mozilla.org/mozilla-central/rev/tip",
           ["https://hg.mozilla.org/mozilla-central/rev/tip"])

/-- Two character lists differ only in single-quote characters: erasing
quotes on either side step by step makes them agree. -/
inductive QuoteDiff : List Char → List Char → Prop
  | nil : QuoteDiff [] []
  | cons {l1 l2 : List Char} (c : Char) (hc : c ≠ quoteChar) :
      QuoteDiff l1 l2 → QuoteDiff (c :: l1) (c :: l2)
  | quoteLeft {l1 l2 : List Char} :
      QuoteDiff l1 l2 → QuoteDiff (quoteChar :: l1) l2
  | quoteRight {l1 l2 : List Char} :
      QuoteDiff l1 l2 → QuoteDiff l1 (quoteChar :: l2)

/-- Modelled from the spec: the restricted character set the spec requires
partition-key components to be sanitized to — alphanumerics and the
underscore (code point 95). The code contains no such check; this
definition exists only to state that the check is absent. -/
def specRestrictedChar (ch : Char) : Bool :=
  ch.isAlphanum || ch = Char.ofNat 95

/-- An empty store. -/
def emptyDb : Db := { tables := [], ledger := [] }

/-- Concrete dimension document for instantiating theorems. -/
def exDims : Dimensions :=
  { application := "Firefox", architecture := "x86", revision := "rev0",
    os := "Linux", os_version := "3.0", metric := "SIMPLE_M", label := "",
    child := false }

/-- Concrete oracle for instantiating theorems: every definition lookup
fails. -/
def exOracle : Oracle := fun _ _ _ => none

/-- Concrete 9-tuple aggregate key for instantiating theorems. -/
def exKey : AggKey :=
  { submission_date := "20150601", channel := "nightly", version := "41",
    build_id := "20150527", application := "Firefox", architecture := "x86",
    revision := "rev0", os := "Linux", os_version := "3.0" }

/-- Concrete one-aggregate, one-metric batch for instantiating theorems;
the metric is a SIMPLE_ one, so its histogram passes through unexpanded. -/
def exBatch : Batch :=
  { submission_date := "20150601", channel := "nightly", version := "41",
    build_id := "20150527",
    items := [(exKey, [({ metric := "SIMPLE_M", label := "", child := false },
      { histogram := [1], count := 5 })])] }

/-- The store state after committing `exBatch` into `emptyDb`. -/
def exDb1 : Db :=
  { tables := [("nightly_41_20150527", [{ dims := exDims, histogram := [1, 5] }])],
    ledger := [("nightly_41_20150527", ["20150601"])] }

/-- Concrete label containing a single quote. -/
def exLabelA : String := String.mk ['a', quoteChar, 'b']

/-- The same label with the quote dropped. -/
def exLabelB : String := String.mk ['a', 'b']

-- Helper lemmas about the array primitives.

theorem arr_get_nil (n : Nat) : arr_get [] n = 0 := by
  cases n <;> rfl

theorem arr_get_default (l : List Int) (n : Nat) (h : l.length ≤ n) :
    arr_get l n = 0 := by
  induction l generalizing n with
  | nil => exact arr_get_nil n
  | cons a as ih =>
    cases n with
    | zero => simp at h
    | succ m => exact ih m (by simpa using h)

theorem arr_set_length (l : List Int) (i : Nat) (v : Int) :
    (arr_set l i v).length = max l.length (i + 1) := by
  induction l generalizing i with
  | nil =>
    induction i with
    | zero => rfl
    | succ n ihn => simp [arr_set, ihn]
  | cons a as ih =>
    cases i with
    | zero => simp [arr_set]
    | succ n =>
      simp [arr_set, ih]
      omega

theorem arr_get_arr_set (l : List Int) (i : Nat) (v : Int) (j : Nat) :
    arr_get (arr_set l i v) j = if j = i then v else arr_get l j := by
  induction l generalizing i j with
  | nil =>
    induction i generalizing j with
    | zero => cases j <;> simp [arr_set, arr_get, arr_get_nil]
    | succ n ihn =>
      cases j with
      | zero => simp [arr_set, arr_get]
      | succ m => simp [arr_set, arr_get, ihn m, arr_get_nil]
  | cons a as ih =>
    cases i with
    | zero => cases j <;> simp [arr_set, arr_get]
    | succ n =>
      cases j with
      | zero => simp [arr_set, arr_get]
      | succ m => simp [arr_set, arr_get, ih n m]

theorem foldl_range_succ (f : List Int → Nat → List Int) (a : List Int) (n : Nat) :
    (List.range (n + 1)).foldl f a = f ((List.range n).foldl f a) n := by
  rw [List.range_succ, List.foldl_append]
  rfl

theorem agg_loop_length (x acc : List Int) (n : Nat) :
    ((List.range n).foldl (agg_step x) acc).length = max acc.length n := by
  induction n with
  | zero => simp
  | succ m ih =>
    rw [foldl_range_succ]
    simp only [agg_step, arr_set_length, ih]
    omega

theorem agg_loop_get (x acc : List Int) (n : Nat) (j : Nat) :
    arr_get ((List.range n).foldl (agg_step x) acc) j =
      if j < n then arr_get acc j + arr_get x j else arr_get acc j := by
  induction n with
  | zero => simp
  | succ m ih =>
    rw [foldl_range_succ]
    simp only [agg_step, arr_get_arr_set]
    by_cases hj : j = m
    · subst hj
      rw [if_pos rfl, ih, if_neg (by omega), if_pos (by omega)]
    · rw [if_neg hj, ih]
      by_cases h2 : j < m
      · rw [if_pos h2, if_pos (by omega)]
      · rw [if_neg h2, if_neg (by omega)]

theorem arr_get_append (l1 l2 : List Int) (j : Nat) :
    arr_get (l1 ++ l2) j =
      if j < l1.length then arr_get l1 j else arr_get l2 (j - l1.length) := by
  induction l1 generalizing j with
  | nil => simp [arr_get_nil]
  | cons a as ih =>
    cases j with
    | zero => simp [arr_get]
    | succ m =>
      have hL : arr_get ((a :: as) ++ l2) (m + 1) = arr_get (as ++ l2) m := rfl
      rw [hL, ih m, List.length_cons]
      by_cases hm : m < as.length
      · rw [if_pos hm, if_pos (by omega)]
        rfl
      · rw [if_neg hm, if_neg (by omega)]
        have hsub : m + 1 - (as.length + 1) = m - as.length := by omega
        rw [hsub]

theorem arr_get_map_range (f : Nat → Int) (m j : Nat) :
    arr_get ((List.range m).map f) j = if j < m then f j else 0 := by
  induction m with
  | zero => simp [arr_get_nil]
  | succ n ih =>
    rw [List.range_succ, List.map_append, arr_get_append]
    simp only [List.length_map, List.length_range, List.map_cons, List.map_nil]
    by_cases hj : j < n
    · rw [if_pos hj, ih, if_pos hj, if_pos (by omega)]
    · rw [if_neg hj]
      by_cases he : j = n
      · subst he
        simp [arr_get]
      · rw [if_neg (by omega : ¬j < n + 1)]
        have hstep : j - n = (j - n - 1) + 1 := by omega
        rw [hstep]
        simp [arr_get, arr_get_nil]

theorem length_padSum (a b : List Int) :
    (padSum a b).length = max a.length b.length := by
  simp [padSum]

theorem arr_get_padSum (a b : List Int) (j : Nat) :
    arr_get (padSum a b) j = arr_get a j + arr_get b j := by
  rw [padSum, arr_get_map_range]
  by_cases hj : j < max a.length b.length
  · rw [if_pos hj]
  · rw [if_neg hj, arr_get_default a j (by omega), arr_get_default b j (by omega)]
    simp

theorem arr_ext (l1 l2 : List Int) (hlen : l1.length = l2.length)
    (h : ∀ j, arr_get l1 j = arr_get l2 j) : l1 = l2 := by
  induction l1 generalizing l2 with
  | nil =>
    cases l2 with
    | nil => rfl
    | cons b bs => simp at hlen
  | cons a as ih =>
    cases l2 with
    | nil => simp at hlen
    | cons b bs =>
      have h0 := h 0
      simp only [arr_get] at h0
      have htl : as = bs := ih bs (by simpa using hlen) (fun j => h (j + 1))
      rw [h0, htl]

theorem agg_body_eq_padSum (acc x : List Int) : agg_body acc x = padSum acc x := by
  apply arr_ext
  · rw [agg_body, agg_loop_length, length_padSum]
  · intro j
    rw [agg_body, agg_loop_get, arr_get_padSum]
    by_cases hj : j < x.length
    · rw [if_pos hj]
    · rw [if_neg hj, arr_get_default x j (by omega), add_zero]

theorem padSum_comm (a b : List Int) : padSum a b = padSum b a := by
  apply arr_ext
  · rw [length_padSum, length_padSum, Nat.max_comm]
  · intro j
    rw [arr_get_padSum, arr_get_padSum, Int.add_comm]

theorem padSum_assoc (a b c : List Int) :
    padSum (padSum a b) c = padSum a (padSum b c) := by
  apply arr_ext
  · simp only [length_padSum]
    omega
  · intro j
    simp only [arr_get_padSum]
    ring

theorem arr_get_replicate_zero (n j : Nat) :
    arr_get (List.replicate n (0 : Int)) j = 0 := by
  induction n generalizing j with
  | zero => simp [arr_get_nil]
  | succ m ih =>
    cases j with
    | zero => simp [List.replicate_succ, arr_get]
    | succ k => simpa [List.replicate_succ, arr_get] using ih k

theorem padSum_zero_right (a : List Int) :
    padSum a (List.replicate a.length 0) = a := by
  apply arr_ext
  · simp [length_padSum]
  · intro j
    rw [arr_get_padSum, arr_get_replicate_zero, add_zero]

theorem padSum_nil_left (x : List Int) : padSum [] x = x := by
  apply arr_ext
  · simp [length_padSum]
  · intro j
    rw [arr_get_padSum, arr_get_nil, zero_add]

theorem padSum_ne_nil_left (a b : List Int) (ha : a ≠ []) : padSum a b ≠ [] := by
  intro h
  have hl := congrArg List.length h
  rw [length_padSum] at hl
  simp only [List.length_nil] at hl
  exact ha (List.eq_nil_of_length_eq_zero (by omega))

theorem replicate_length_ne_nil (a : List Int) (ha : a ≠ []) :
    List.replicate a.length (0 : Int) ≠ [] := by
  intro h
  have hl := congrArg List.length h
  simp only [List.length_replicate, List.length_nil] at hl
  exact ha (List.eq_nil_of_length_eq_zero hl)

theorem aggregate_arrays_ok (acc x : List Int) (hx : x ≠ []) :
    aggregate_arrays acc x = Except.ok (padSum acc x) := by
  rw [aggregate_arrays, if_neg (fun h => hx (List.eq_nil_of_length_eq_zero h)),
    agg_body_eq_padSum]

theorem aggregate_histograms_pair_ok (h1 h2 : List Int)
    (hh1 : h1 ≠ []) (hh2 : h2 ≠ []) :
    aggregate_histograms_pair h1 h2 = Except.ok (padSum h1 h2) := by
  rw [aggregate_histograms_pair, aggregate_arrays_ok [] h1 hh1, padSum_nil_left]
  show aggregate_arrays h1 h2 = Except.ok (padSum h1 h2)
  rw [aggregate_arrays_ok h1 h2 hh2]

-- Helper lemmas about the keyed-table model.

theorem alookup_aset_self {α : Type} (l : List (String × α)) (k : String) (v : α) :
    alookup (aset l k v) k = some v := by
  induction l with
  | nil => simp [aset, alookup]
  | cons p rest ih =>
    obtain ⟨k2, w⟩ := p
    by_cases hk : k2 = k
    · subst hk
      simp [aset, alookup]
    · simp [aset, alookup, hk, ih]

theorem updateRows_ok (d : Dimensions) (h : List Int) (t : List Row)
    (hh : h ≠ []) (ht : ∀ r ∈ t, r.histogram ≠ []) :
    updateRows d h t = Except.ok (t.map (fun r =>
      if r.dims = d then { dims := r.dims, histogram := padSum r.histogram h } else r)) := by
  induction t with
  | nil => rfl
  | cons r rest ih =>
    have hr : r.histogram ≠ [] := ht r (List.mem_cons_self r rest)
    have hrest : ∀ x ∈ rest, x.histogram ≠ [] := fun x hx => ht x (List.mem_cons_of_mem r hx)
    by_cases hd : r.dims = d
    · simp only [updateRows, if_pos hd, aggregate_histograms_pair_ok r.histogram h hr hh,
        ih hrest, List.map_cons]
    · simp only [updateRows, if_neg hd, ih hrest, List.map_cons, if_neg hd]

theorem add_buildid_metric_ledger (db db2 : Db) (c v b : String)
    (d : Dimensions) (h : List Int)
    (hok : add_buildid_metric db c v b d h = Except.ok db2) : db2.ledger = db.ledger := by
  unfold add_buildid_metric at hok
  by_cases he : ∃ r ∈ tableOf db c v b, r.dims = d
  · rw [if_pos he] at hok
    cases hu : updateRows d h (tableOf db c v b) with
    | ok t2 =>
      rw [hu] at hok
      simp only [Except.ok.injEq] at hok
      rw [← hok]
    | error e =>
      rw [hu] at hok
      exact Except.noConfusion hok
  · rw [if_neg he] at hok
    simp only [Except.ok.injEq] at hok
    rw [← hok]

theorem upsertMetrics_ledger (oracle : Oracle) (key : AggKey) :
    ∀ (ms : List (MetricKey × Payload)) (db db2 : Db),
      upsertMetrics oracle key db ms = Except.ok db2 → db2.ledger = db.ledger := by
  intro ms
  induction ms with
  | nil =>
    intro db db2 hok
    simp only [upsertMetrics, Except.ok.injEq] at hok
    rw [← hok]
  | cons mp rest ih =>
    intro db db2 hok
    obtain ⟨mk, p⟩ := mp
    unfold upsertMetrics at hok
    split at hok
    · exact ih db db2 hok
    · split at hok
      · rename_i dbm ha
        rw [ih dbm db2 hok, add_buildid_metric_ledger db dbm _ _ _ _ _ ha]
      · exact Except.noConfusion hok

theorem upsertAggList_ledger (oracle : Oracle) :
    ∀ (l : List Aggregate) (db db2 : Db),
      upsertAggList oracle db l = Except.ok db2 → db2.ledger = db.ledger := by
  intro l
  induction l with
  | nil =>
    intro db db2 hok
    simp only [upsertAggList, Except.ok.injEq] at hok
    rw [← hok]
  | cons agg rest ih =>
    intro db db2 hok
    unfold upsertAggList at hok
    cases ha : _upsert_aggregate oracle db agg with
    | ok dbm =>
      rw [ha] at hok
      rw [ih dbm db2 hok, upsertMetrics_ledger oracle agg.1 agg.2 db dbm ha]
    | error e =>
      rw [ha] at hok
      exact Except.noConfusion hok

theorem wbp_false_ledger (db db1 : Db) (c v b s : String)
    (h : was_buildid_processed db c v b s = (false, db1)) :
    ∃ ds, alookup db1.ledger (mkTablename c v b) = some ds ∧ s ∈ ds := by
  unfold was_buildid_processed at h
  split at h
  · rename_i dates hl
    split at h
    · simp at h
    · simp only [Prod.mk.injEq] at h
      refine ⟨dates ++ [s], ?_, by simp⟩
      rw [← h.2]
      exact alookup_aset_self db.ledger (mkTablename c v b) (dates ++ [s])
  · rename_i hl
    simp only [Prod.mk.injEq] at h
    refine ⟨[s], ?_, by simp⟩
    rw [← h.2]
    exact alookup_aset_self db.ledger (mkTablename c v b) [s]

theorem wbp_true (db : Db) (c v b s : String) (ds : List String)
    (hl : alookup db.ledger (mkTablename c v b) = some ds) (hs : s ∈ ds) :
    was_buildid_processed db c v b s = (true, db) := by
  unfold was_buildid_processed
  split
  · rename_i dates hmatch
    rw [hl] at hmatch
    injection hmatch with hdd
    subst hdd
    rw [if_pos hs]
  · rename_i hmatch
    rw [hl] at hmatch
    exact Option.noConfusion hmatch

theorem quoteDiff_filter {l1 l2 : List Char} (h : QuoteDiff l1 l2) :
    l1.filter (fun c => c != quoteChar) = l2.filter (fun c => c != quoteChar) := by
  induction h with
  | nil => rfl
  | cons c hc hd ih =>
    have hb : (c != quoteChar) = true := by simpa using hc
    simp only [List.filter_cons, hb, ih]
  | quoteLeft hd ih =>
    have hb : (quoteChar != quoteChar) = false := by simp
    simp [List.filter_cons, hb, ih]
  | quoteRight hd ih =>
    have hb : (quoteChar != quoteChar) = false := by simp
    simp [List.filter_cons, hb, ih]

theorem length_filter_lt {p : Char → Bool} {l : List Char} {a : Char}
    (ha : a ∈ l) (hpa : p a = false) : (l.filter p).length < l.length := by
  induction l with
  | nil => cases ha
  | cons b bs ih =>
    rcases List.mem_cons.mp ha with hab | hmem
    · subst hab
      simp only [List.filter_cons, hpa, List.length_cons]
      exact Nat.lt_succ_of_le (List.length_filter_le p bs)
    · cases hpb : p b with
      | true =>
        simp only [List.filter_cons, hpb, List.length_cons]
        exact Nat.succ_lt_succ (ih hmem)
      | false =>
        simp only [List.filter_cons, hpb, List.length_cons]
        exact Nat.lt_succ_of_lt (ih hmem)

/-- Dimension sets are untouched by the per-row update map of the upsert. -/
theorem updFun_dims (d : Dimensions) (h : List Int) (r : Row) :
    (if r.dims = d then { dims := r.dims, histogram := padSum r.histogram h } else r).dims
      = r.dims := by
  by_cases hd : r.dims = d
  · rw [if_pos hd]
  · rw [if_neg hd]

/-- C3 counterexample: the accumulator is not commutative over all pairs of
numeric vectors — with the second operand empty it raises (array_length of
an empty array is NULL), while the swapped call succeeds, so
`aggregate_arrays [1] [] ≠ aggregate_arrays [] [1]`. -/
theorem aggregate_arrays_comm_counterexample :
    aggregate_arrays [1] [] ≠ aggregate_arrays [] [1] :=
  fun h => Except.noConfusion h

/-- C3 (amended): over nonempty numeric vectors the accumulator is
commutative and associative, and the same-length all-zero vector is a
right identity. -/
theorem aggregate_arrays_comm_assoc_identity (a b c : List Int)
    (ha : a ≠ []) (hb : b ≠ []) (hc : c ≠ []) :
    aggregate_arrays a b = aggregate_arrays b a ∧
    ((aggregate_arrays a b).bind fun ab => aggregate_arrays ab c) =
      ((aggregate_arrays b c).bind fun bc => aggregate_arrays a bc) ∧
    aggregate_arrays a (List.replicate a.length 0) = Except.ok a := by
  refine ⟨?_, ?_, ?_⟩
  · rw [aggregate_arrays_ok a b hb, aggregate_arrays_ok b a ha, padSum_comm]
  · rw [aggregate_arrays_ok a b hb, aggregate_arrays_ok b c hc]
    show aggregate_arrays (padSum a b) c = aggregate_arrays a (padSum b c)
    rw [aggregate_arrays_ok _ _ hc,
      aggregate_arrays_ok _ _ (padSum_ne_nil_left b c hb), padSum_assoc]
  · rw [aggregate_arrays_ok _ _ (replicate_length_ne_nil a ha), padSum_zero_right]

/-- Witness for the amended C3 at concrete nonempty vectors. -/
theorem aggregate_arrays_comm_assoc_identity_witness :
    ([1, 2] : List Int) ≠ [] ∧ ([3] : List Int) ≠ [] ∧ ([4, 5, 6] : List Int) ≠ [] ∧
    (aggregate_arrays [1, 2] [3] = aggregate_arrays [3] [1, 2] ∧
      ((aggregate_arrays [1, 2] [3]).bind fun ab => aggregate_arrays ab [4, 5, 6]) =
        ((aggregate_arrays [3] [4, 5, 6]).bind fun bc => aggregate_arrays [1, 2] bc) ∧
      aggregate_arrays [1, 2] (List.replicate ([1, 2] : List Int).length 0) =
        Except.ok [1, 2]) :=
  ⟨by decide, by decide, by decide,
    aggregate_arrays_comm_assoc_identity [1, 2] [3] [4, 5, 6]
      (by decide) (by decide) (by decide)⟩

/-- C4 counterexample: the accumulator is not total — called with an empty
second operand it raises the plpgsql error `upper bound of FOR loop cannot
be null` instead of returning the padded sum. -/
theorem aggregate_arrays_error_on_empty_second_operand :
    aggregate_arrays [1] [] = Except.error "upper bound of FOR loop cannot be null" :=
  rfl

/-- C4 (amended): whenever the second operand is nonempty — the first may
have any length, including zero — the accumulator succeeds and returns the
positional sum with the shorter vector padded with zeros, of length the
maximum of the two lengths. -/
theorem aggregate_arrays_total_nonempty (acc x : List Int) (hx : x ≠ []) :
    aggregate_arrays acc x = Except.ok (padSum acc x) ∧
    (padSum acc x).length = max acc.length x.length :=
  ⟨aggregate_arrays_ok acc x hx, length_padSum acc x⟩

/-- Witness for the amended C4 at a concrete length-mismatched pair. -/
theorem aggregate_arrays_total_nonempty_witness :
    ([7] : List Int) ≠ [] ∧
    (aggregate_arrays [1, 2, 3] [7] = Except.ok (padSum [1, 2, 3] [7]) ∧
      (padSum [1, 2, 3] [7]).length =
        max ([1, 2, 3] : List Int).length ([7] : List Int).length) :=
  ⟨by decide, aggregate_arrays_total_nonempty [1, 2, 3] [7] (by decide)⟩

/-- C5: one `add_buildid_metric` write either merges into the row whose
dimension set matches (replacing its value by the accumulated one, adding
no row) or inserts exactly one fresh row when no dimension set matches,
and it preserves the at-most-one-row-per-dimension-set invariant. -/
theorem add_buildid_metric_row_upsert (db : Db) (c v b : String) (d : Dimensions)
    (h : List Int) (hh : h ≠ [])
    (hrows : ∀ r ∈ tableOf db c v b, r.histogram ≠ [])
    (hdist : (tableOf db c v b).Pairwise (fun r1 r2 => r1.dims ≠ r2.dims)) :
    add_buildid_metric db c v b d h =
      Except.ok { db with tables := aset db.tables (mkTablename c v b) (upsertResult (tableOf db c v b) d h) } ∧
    (upsertResult (tableOf db c v b) d h).Pairwise (fun r1 r2 => r1.dims ≠ r2.dims) ∧
    ((∃ r ∈ tableOf db c v b, r.dims = d) →
      (upsertResult (tableOf db c v b) d h).length = (tableOf db c v b).length) := by
  refine ⟨?_, ?_, ?_⟩
  · by_cases he : ∃ r ∈ tableOf db c v b, r.dims = d
    · unfold add_buildid_metric
      rw [if_pos he, updateRows_ok d h _ hh hrows, upsertResult, if_pos he]
    · unfold add_buildid_metric
      rw [if_neg he, upsertResult, if_neg he]
  · rw [upsertResult]
    by_cases he : ∃ r ∈ tableOf db c v b, r.dims = d
    · rw [if_pos he, List.pairwise_map]
      refine hdist.imp ?_
      intro r1 r2 h12
      rw [updFun_dims, updFun_dims]
      exact h12
    · rw [if_neg he, List.pairwise_append]
      refine ⟨hdist, by simp, ?_⟩
      intro r hr r2 hr2
      simp only [List.mem_singleton] at hr2
      subst hr2
      intro hcontra
      exact he ⟨r, hr, hcontra⟩
  · intro he
    rw [upsertResult, if_pos he, List.length_map]

/-- Witness for C5 at a concrete fresh partition. -/
theorem add_buildid_metric_row_upsert_witness :
    (([5, 1] : List Int) ≠ []) ∧
    (∀ r ∈ tableOf emptyDb "nightly" "41" "20150527", r.histogram ≠ []) ∧
    (tableOf emptyDb "nightly" "41" "20150527").Pairwise (fun r1 r2 => r1.dims ≠ r2.dims) ∧
    (add_buildid_metric emptyDb "nightly" "41" "20150527" exDims [5, 1] =
      Except.ok { emptyDb with tables := aset emptyDb.tables (mkTablename "nightly" "41" "20150527") (upsertResult (tableOf emptyDb "nightly" "41" "20150527") exDims [5, 1]) } ∧
    (upsertResult (tableOf emptyDb "nightly" "41" "20150527") exDims [5, 1]).Pairwise (fun r1 r2 => r1.dims ≠ r2.dims) ∧
    ((∃ r ∈ tableOf emptyDb "nightly" "41" "20150527", r.dims = exDims) →
      (upsertResult (tableOf emptyDb "nightly" "41" "20150527") exDims [5, 1]).length =
        (tableOf emptyDb "nightly" "41" "20150527").length)) := by
  have ht : tableOf emptyDb "nightly" "41" "20150527" = [] := rfl
  refine ⟨by decide, by decide, ?_, ?_⟩
  · rw [ht]
    exact List.Pairwise.nil
  · exact add_buildid_metric_row_upsert emptyDb "nightly" "41" "20150527" exDims [5, 1]
      (by decide) (by decide) (by rw [ht]; exact List.Pairwise.nil)

/-- Counterexample for C2: no InvalidPartitionKey rejection happens before
store access. Handed the channel "rel;ease", whose concatenated partition
identifier contains a character outside the restricted set, the write
path performs its first store access — the ledger test-and-set of
`was_buildid_processed`, which runs only parameterized statements — keyed
by the raw interpolated identifier "rel;ease_41_20150527", mutating the
ledger and reporting no error of any kind: the unsanitized input is
silently interpolated into the partition identifier rather than rejected. -/
theorem unsafe_partition_key_not_rejected :
    was_buildid_processed emptyDb "rel;ease" "41" "20150527" "20150601" =
      (false, { tables := [], ledger := [("rel;ease_41_20150527", ["20150601"])] }) ∧
    ((mkTablename "rel;ease" "41" "20150527").data.all specRestrictedChar) = false :=
  ⟨by decide, by decide⟩

/-- Amended C2: no sanitization and no InvalidPartitionKey rejection exist
on the write path: for arbitrary channel, version and build-id strings —
whatever characters they contain — every character of each component is
interpolated verbatim into the partition identifier, and the ledger
test-and-set proceeds against the store keyed by that unsanitized
identifier without any error. (A malformed identifier can surface only
later, as a storage-layer SQL syntax error when the dynamically built
per-partition statements are parsed, never as a pre-access
InvalidPartitionKey rejection.) -/
theorem partition_key_not_validated (db : Db) (c v b s : String)
    (habs : alookup db.ledger (mkTablename c v b) = none) :
    (∀ x ∈ c.data, x ∈ (mkTablename c v b).data) ∧
    (∀ x ∈ v.data, x ∈ (mkTablename c v b).data) ∧
    (∀ x ∈ b.data, x ∈ (mkTablename c v b).data) ∧
    was_buildid_processed db c v b s =
      (false, { db with ledger := aset db.ledger (mkTablename c v b) [s] }) := by
  have hdata : (mkTablename c v b).data = c.data ++ "_".data ++ v.data ++ "_".data ++ b.data := rfl
  refine ⟨?_, ?_, ?_, ?_⟩
  · intro x hx
    rw [hdata]
    simp only [List.mem_append]
    tauto
  · intro x hx
    rw [hdata]
    simp only [List.mem_append]
    tauto
  · intro x hx
    rw [hdata]
    simp only [List.mem_append]
    tauto
  · unfold was_buildid_processed
    split
    · rename_i dates hmatch
      rw [habs] at hmatch
      exact Option.noConfusion hmatch
    · rfl

/-- Witness for the amended C2 at the concrete unsafe channel. -/
theorem partition_key_not_validated_witness :
    alookup emptyDb.ledger (mkTablename "rel;ease" "41" "20150527") = none ∧
    ((∀ x ∈ ("rel;ease" : String).data, x ∈ (mkTablename "rel;ease" "41" "20150527").data) ∧
     (∀ x ∈ ("41" : String).data, x ∈ (mkTablename "rel;ease" "41" "20150527").data) ∧
     (∀ x ∈ ("20150527" : String).data, x ∈ (mkTablename "rel;ease" "41" "20150527").data) ∧
     was_buildid_processed emptyDb "rel;ease" "41" "20150527" "20150601" =
       (false, { emptyDb with ledger := aset emptyDb.ledger (mkTablename "rel;ease" "41" "20150527") ["20150601"] })) :=
  ⟨rfl, partition_key_not_validated emptyDb "rel;ease" "41" "20150527" "20150601" rfl⟩

/-- C1: once a batch has committed, resubmitting the identical batch
observes the ledger entry for its (channel, version, build id, submission
date) key, reports already-processed, and performs zero row mutations —
the stored state stays exactly the state after the first submission. -/
theorem upsert_aggregates_idempotent (oracle : Oracle) (db db1 : Db) (batch : Batch)
    (h1 : _upsert_aggregates oracle db batch false = (Outcome.committed, db1)) :
    _upsert_aggregates oracle db1 batch false = (Outcome.alreadyProcessed, db1) := by
  unfold _upsert_aggregates at h1
  split at h1
  · simp at h1
  · rename_i dbL hw
    split at h1
    · rename_i db2 hup
      simp only [Bool.false_eq_true, if_false, Prod.mk.injEq, true_and] at h1
      subst h1
      obtain ⟨ds, hds, hmem⟩ := wbp_false_ledger db dbL batch.channel batch.version
        batch.build_id batch.submission_date hw
      have hled : db2.ledger = dbL.ledger :=
        upsertAggList_ledger oracle batch.items dbL db2 hup
      unfold _upsert_aggregates
      rw [wbp_true db2 batch.channel batch.version batch.build_id
        batch.submission_date ds (by rw [hled]; exact hds) hmem]
    · simp at h1

/-- Witness for C1: committing the concrete example batch into the empty
store and submitting it a second time. -/
theorem upsert_aggregates_idempotent_witness :
    _upsert_aggregates exOracle emptyDb exBatch false = (Outcome.committed, exDb1) ∧
    _upsert_aggregates exOracle exDb1 exBatch false = (Outcome.alreadyProcessed, exDb1) :=
  ⟨by decide, upsert_aggregates_idempotent exOracle emptyDb exDb1 exBatch (by decide)⟩

/-- C6 (code bug): for a channel outside the fixed table, the code resolves
the revision to the literal default string "nightly" — not the nightly
tip-of-branch locator that channel "nightly" resolves to — contradicting
the comment in the code itself, which says the nightly revision is used
for unknown channels. -/
theorem get_revision_unknown_channel_literal :
    _get_revision "esr" = "nightly" ∧
    _get_revision "nightly" = "https://hg.mozilla.org/mozilla-central/rev/tip" ∧
    _get_revision "esr" ≠ _get_revision "nightly" := by
  refine ⟨rfl, rfl, ?_⟩
  decide

/-- C7: when histogram expansion fails for a metric (the KeyError that the
coordinator catches), the metric loop skips exactly that metric and
processes the remaining metrics of the batch as if it were absent. -/
theorem upsertMetrics_skips_failed_metric (oracle : Oracle) (key : AggKey) (db : Db)
    (mk : MetricKey) (p : Payload) (rest : List (MetricKey × Payload))
    (hfail : _get_complete_histogram oracle key.channel mk.metric p.histogram = none) :
    upsertMetrics oracle key db ((mk, p) :: rest) = upsertMetrics oracle key db rest := by
  have step : upsertMetrics oracle key db ((mk, p) :: rest) =
      match _get_complete_histogram oracle key.channel mk.metric p.histogram with
      | none => upsertMetrics oracle key db rest
      | some hist =>
        match add_buildid_metric db key.channel key.version key.build_id
          { application := key.application, architecture := key.architecture,
            revision := key.revision, os := key.os, os_version := key.os_version,
            metric := mk.metric, label := stripQuotes mk.label, child := mk.child }
          (hist ++ [p.count]) with
        | Except.ok db2 => upsertMetrics oracle key db2 rest
        | Except.error e => Except.error e := rfl
  rw [step, hfail]

/-- Witness for C7 at a concrete failing metric. -/
theorem upsertMetrics_skips_failed_metric_witness :
    _get_complete_histogram exOracle exKey.channel "GC_MS" [1] = none ∧
    upsertMetrics exOracle exKey emptyDb
        [({ metric := "GC_MS", label := "", child := false },
          { histogram := [1], count := 5 })] =
      upsertMetrics exOracle exKey emptyDb [] :=
  ⟨by decide, upsertMetrics_skips_failed_metric exOracle exKey emptyDb
    { metric := "GC_MS", label := "", child := false }
    { histogram := [1], count := 5 } [] (by decide)⟩

/-- C10: every single-quote character is removed from a label before the
dimensions are stored — a label containing a quote is stored altered, and
two labels that differ only in quote characters produce the same stored
label, hence the same stored dimension set. -/
theorem label_quote_stripping (l l1 l2 : String)
    (hl : quoteChar ∈ l.data) (hdiff : QuoteDiff l1.data l2.data) :
    stripQuotes l ≠ l ∧ stripQuotes l1 = stripQuotes l2 := by
  constructor
  · intro heq
    have hdata : l.data.filter (fun c => c != quoteChar) = l.data :=
      congrArg String.data heq
    have hlt : (l.data.filter (fun c => c != quoteChar)).length < l.data.length :=
      length_filter_lt hl (by simp)
    rw [hdata] at hlt
    exact Nat.lt_irrefl _ hlt
  · unfold stripQuotes
    rw [quoteDiff_filter hdiff]

/-- Witness for C10 at concrete labels. -/
theorem label_quote_stripping_witness :
    quoteChar ∈ exLabelA.data ∧
    QuoteDiff exLabelA.data exLabelB.data ∧
    (stripQuotes exLabelA ≠ exLabelA ∧ stripQuotes exLabelA = stripQuotes exLabelB) := by
  have hd : QuoteDiff exLabelA.data exLabelB.data :=
    QuoteDiff.cons 'a' (by decide)
      (QuoteDiff.quoteLeft (QuoteDiff.cons 'b' (by decide) QuoteDiff.nil))
  exact ⟨by decide, hd, label_quote_stripping exLabelA exLabelA exLabelB (by decide) hd⟩

/-- C8: a resolution request that supplies both an explicit channel and an
explicit revision fails with `ConflictingSource`, and its fetch list is
empty — the rejection happens before any network access. -/
theorem resolve_both_channel_and_revision_conflicts (c r : String) (u : Option String) :
    resolve_probe_source (some c) (some r) u =
      (Except.error ResolveError.ConflictingSource, []) :=
  rfl

/-- C9: merging two values of a non-numeric kind always fails with
`NotMergeable`; no merged value is ever produced. -/
theorem merge_non_numeric_fails (k : MetricKind) (hk : k.mergeable = false)
    (a b : MetricValue) :
    merge k a b = Except.error MergeError.NotMergeable := by
  cases k <;> first | rfl | exact absurd hk (by decide)

/-- Witness for C9 at the string kind. -/
theorem merge_non_numeric_fails_witness :
    MetricKind.string.mergeable = false ∧
    merge MetricKind.string (MetricValue.str "a") (MetricValue.str "b") =
      Except.error MergeError.NotMergeable :=
  ⟨rfl, merge_non_numeric_fails MetricKind.string rfl
    (MetricValue.str "a") (MetricValue.str "b")⟩
